import Mathlib

/-!
# Verification of the beers-state store (`src/state/beersState.ts`)

A shallow embedding of the MobX store in `src/state/beersState.ts`.

* JS numbers that hold entity ids are embedded as `Int` (ids are integral;
  `_.parseInt` can produce negative values).
* `ObservableMap` is embedded as an insertion-ordered association list
  (`List (String × α)`) with JS `Map` semantics: `set` on an existing key
  overwrites in place, otherwise appends; `delete` removes the key.
* Exceptions are explicit: a function that can `throw` returns its result
  together with an `Option String`/`Except String` carrying the thrown
  message.
* The external `fetch` is an oracle `FetchOracle` mapping a URI to an
  outcome; each elaborated call to `fetch` is recorded in a call trace so
  that "performs network I/O" is observable.
* `async`/`await` interleaving: the only suspension point that matters to
  the claims is the `await fetch(uri)` inside `getBeersApi`, so that
  function is split into a synchronous prefix (`getBeersApiBegin`, up to
  the fetch) and a synchronous suffix (`getBeersApiFinish`, after the
  fetch).  A whole non-overlapping call is their composition
  (`getBeersApi`).
-/

/-- An entity of the catalog (`IBeer`): a numeric `id` (unique key) and a
display `name` used for sort ordering.  Further opaque attributes carried by
the real payload are irrelevant to every operation of the store (only `id`
and `name` are ever read) and are omitted. -/
structure IBeer where
  id : Int
  name : String
deriving DecidableEq, Repr

/-- The aggregate info snapshot (`IBeersInfo`): global like and comment
counts, keyed by entity id rendered as a string. -/
structure IBeersInfo where
  globalLikes : List (String × Int)
  globalComments : List (String × List (String × String))
deriving DecidableEq, Repr

/-- JS `Map.get`: the value stored at `k`, if any. -/
def jsMapGet {α : Type} (m : List (String × α)) (k : String) : Option α :=
  (m.find? (fun p => p.1 == k)).map (fun p => p.2)

/-- JS `Map.set`: overwrite in place when the key is present, else append
(JS maps are insertion-ordered). -/
def jsMapSet {α : Type} (m : List (String × α)) (k : String) (v : α) :
    List (String × α) :=
  if m.any (fun p => p.1 == k) then
    m.map (fun p => if p.1 == k then (k, v) else p)
  else
    m ++ [(k, v)]

/-- JS `Map.delete`: drop the entry at `k`. -/
def jsMapDelete {α : Type} (m : List (String × α)) (k : String) :
    List (String × α) :=
  m.filter (fun p => !(p.1 == k))

/-- The observable fields of the `BeersState` class. -/
structure StoreState where
  beers : List IBeer
  remainingRequests : Int
  selectedBeer : Option IBeer
  errorText : Option String
  isRehydrated : Bool
  likedBeerIds : List Int
  commentsMap : List (String × String)
  isUploading : Bool
  beersInfo : Option IBeersInfo
  uriMap : List (String × Bool)
deriving DecidableEq, Repr

/-- The freshly constructed store: every field at its initializer. -/
def initialState : StoreState :=
  { beers := []
    remainingRequests := 0
    selectedBeer := none
    errorText := none
    isRehydrated := false
    likedBeerIds := []
    commentsMap := []
    isUploading := false
    beersInfo := none
    uriMap := [] }

/-! ## Merge Engine (`unionAndSortBeers`)

`_.unionWith(a, b, cmp)` flattens `a ++ b` and keeps, for each
`cmp`-equivalence class, the first element encountered.  `dedupById`
embeds that pass with an accumulator `seen` of ids already emitted.
`_.sortBy(l, ["name"])` is a stable ascending sort by `name`; a stable
sorted permutation is unique, so it is embedded as stable insertion sort
over the total preorder `nameLe`. -/

/-- One pass of `_.unionWith` with comparator `(a, b) => a.id === b.id`:
keep each element whose id has not been seen yet (first occurrence wins). -/
def dedupById : List IBeer → List Int → List IBeer
  | [], _ => []
  | b :: rest, seen =>
    if b.id ∈ seen then dedupById rest seen
    else b :: dedupById rest (b.id :: seen)

/-- The sort relation of `_.sortBy(·, ["name"])`: ascending by `name`.
Stated on the underlying character lists; by `String.le_iff_toList_le`
this is exactly the string order (see `nameLe_iff`), but unlike the
`String` order it evaluates inside the kernel. -/
def nameLe (a b : IBeer) : Prop := a.name.data ≤ b.name.data

theorem nameLe_iff (a b : IBeer) : nameLe a b ↔ a.name ≤ b.name :=
  (String.le_iff_toList_le).symm

instance : DecidableRel nameLe := fun a b =>
  inferInstanceAs (Decidable (a.name.data ≤ b.name.data))

instance : IsTotal IBeer nameLe := ⟨fun a b => le_total a.name.data b.name.data⟩

instance : IsTrans IBeer nameLe := ⟨fun _ _ _ hab hbc => le_trans hab hbc⟩

/-- `_.sortBy(l, ["name"])`: stable ascending sort by `name`. -/
def sortByName (l : List IBeer) : List IBeer := List.insertionSort nameLe l

/-- `unionAndSortBeers`: `_.sortBy(_.unionWith(beers, newBeers, byId), ["name"])`.
The first argument is `this.beers` (the existing catalog), the second the
incoming entities. -/
def unionAndSortBeers (beers newBeers : List IBeer) : List IBeer :=
  sortByName (dedupById (beers ++ newBeers) [])

example :
    unionAndSortBeers [⟨1, "b"⟩] [⟨1, "a"⟩, ⟨2, "a"⟩] = [⟨2, "a"⟩, ⟨1, "b"⟩] := by
  decide

/-! ### Lemmas about `dedupById` -/

theorem mem_dedupById_not_seen :
    ∀ (l : List IBeer) (seen : List Int) (b : IBeer),
      b ∈ dedupById l seen → b.id ∉ seen := by
  intro l
  induction l with
  | nil => intro seen b h; simp [dedupById] at h
  | cons x rest ih =>
    intro seen b h
    rw [dedupById] at h
    by_cases hx : x.id ∈ seen
    · rw [if_pos hx] at h; exact ih seen b h
    · rw [if_neg hx] at h
      rcases List.mem_cons.mp h with rfl | h
      · exact hx
      · intro hb
        exact ih _ b h (List.mem_cons_of_mem _ hb)

theorem dedupById_pairwise (l : List IBeer) (seen : List Int) :
    (dedupById l seen).Pairwise (fun a b => a.id ≠ b.id) := by
  induction l generalizing seen with
  | nil => simp [dedupById]
  | cons x rest ih =>
    rw [dedupById]
    by_cases hx : x.id ∈ seen
    · rw [if_pos hx]; exact ih seen
    · rw [if_neg hx]
      refine List.Pairwise.cons ?_ (ih _)
      intro b hb hEq
      exact mem_dedupById_not_seen rest (x.id :: seen) b hb
        (by rw [← hEq]; exact List.mem_cons_self _ _)

theorem filter_dedupById_eq_find? (i : Int) :
    ∀ (l : List IBeer) (seen : List Int), i ∉ seen →
      (dedupById l seen).filter (fun b => b.id == i)
        = (l.find? (fun b => b.id == i)).toList := by
  intro l
  induction l with
  | nil => intro seen _; simp [dedupById]
  | cons x rest ih =>
    intro seen hi
    rw [dedupById]
    by_cases hx : x.id ∈ seen
    · have hxi : (x.id == i) = false := by
        refine beq_eq_false_iff_ne.mpr ?_
        intro h; exact hi (h ▸ hx)
      rw [if_pos hx, List.find?_cons_of_neg _ (by simp [hxi]), ih seen hi]
    · rw [if_neg hx]
      by_cases hxi : x.id = i
      · have hbe : (x.id == i) = true := beq_iff_eq.mpr hxi
        rw [List.filter_cons_of_pos (by simp [hbe]),
          List.find?_cons_of_pos _ (by simp [hbe])]
        have hrest : (dedupById rest (x.id :: seen)).filter (fun b => b.id == i) = [] := by
          refine List.filter_eq_nil_iff.mpr ?_
          intro b hb
          have hnot := mem_dedupById_not_seen rest (x.id :: seen) b hb
          simp only [beq_iff_eq]
          intro hbi
          exact hnot (by rw [hbi, ← hxi]; exact List.mem_cons_self _ _)
        rw [hrest]
        rfl
      · have hbe : (x.id == i) = false := beq_eq_false_iff_ne.mpr hxi
        rw [List.filter_cons_of_neg (by simp [hbe]),
          List.find?_cons_of_neg _ (by simp [hbe])]
        exact ih (x.id :: seen)
          (by intro h; rcases List.mem_cons.mp h with h | h
              · exact hxi h.symm
              · exact hi h)

theorem exists_id_dedupById (i : Int) :
    ∀ (l : List IBeer) (seen : List Int), i ∉ seen →
      ((∃ b ∈ dedupById l seen, b.id = i) ↔ ∃ b ∈ l, b.id = i) := by
  intro l
  induction l with
  | nil => intro seen _; simp [dedupById]
  | cons x rest ih =>
    intro seen hi
    rw [dedupById]
    by_cases hx : x.id ∈ seen
    · rw [if_pos hx, ih seen hi]
      constructor
      · rintro ⟨b, hb, hbi⟩; exact ⟨b, List.mem_cons_of_mem _ hb, hbi⟩
      · rintro ⟨b, hb, hbi⟩
        rcases List.mem_cons.mp hb with rfl | hb
        · exact absurd (hbi ▸ hx) hi
        · exact ⟨b, hb, hbi⟩
    · rw [if_neg hx]
      by_cases hxi : x.id = i
      · constructor
        · intro _; exact ⟨x, List.mem_cons_self _ _, hxi⟩
        · intro _; exact ⟨x, List.mem_cons_self _ _, hxi⟩
      · have hi' : i ∉ x.id :: seen := by
          intro h
          rcases List.mem_cons.mp h with h | h
          · exact hxi h.symm
          · exact hi h
        constructor
        · rintro ⟨b, hb, hbi⟩
          rcases List.mem_cons.mp hb with rfl | hb
          · exact absurd hbi hxi
          · rcases (ih _ hi').mp ⟨b, hb, hbi⟩ with ⟨c, hc, hci⟩
            exact ⟨c, List.mem_cons_of_mem _ hc, hci⟩
        · rintro ⟨b, hb, hbi⟩
          rcases List.mem_cons.mp hb with rfl | hb
          · exact absurd hbi hxi
          · rcases (ih _ hi').mpr ⟨b, hb, hbi⟩ with ⟨c, hc, hci⟩
            exact ⟨c, List.mem_cons_of_mem _ hc, hci⟩

theorem dedupById_append_nodup :
    ∀ (l m : List IBeer) (seen : List Int),
      l.Pairwise (fun a b => a.id ≠ b.id) → (∀ b ∈ l, b.id ∉ seen) →
      dedupById (l ++ m) seen
        = l ++ dedupById m ((l.map (fun b => b.id)).reverse ++ seen) := by
  intro l
  induction l with
  | nil => intro m seen _ _; simp
  | cons x rest ih =>
    intro m seen hpw hdisj
    rw [List.cons_append, dedupById, if_neg (hdisj x (List.mem_cons_self _ _))]
    have hdisj' : ∀ b ∈ rest, b.id ∉ x.id :: seen := by
      intro b hb h
      rcases List.mem_cons.mp h with h | h
      · exact (List.pairwise_cons.mp hpw).1 b hb h.symm
      · exact hdisj b (List.mem_cons_of_mem _ hb) h
    rw [ih m (x.id :: seen) (List.pairwise_cons.mp hpw).2 hdisj']
    simp [List.append_assoc]

theorem dedupById_eq_nil (m : List IBeer) (seen : List Int)
    (h : ∀ b ∈ m, b.id ∈ seen) : dedupById m seen = [] := by
  induction m with
  | nil => rfl
  | cons x rest ih =>
    rw [dedupById, if_pos (h x (List.mem_cons_self _ _))]
    exact ih (fun b hb => h b (List.mem_cons_of_mem _ hb))

/-! ### Stability of the sort -/

theorem filter_orderedInsert_of_neg (p : IBeer → Bool) (x : IBeer)
    (hx : p x = false) :
    ∀ l : List IBeer, (List.orderedInsert nameLe x l).filter p = l.filter p := by
  intro l
  induction l with
  | nil => simp [List.orderedInsert, hx]
  | cons y ys ih =>
    rw [List.orderedInsert]
    by_cases h : nameLe x y
    · rw [if_pos h, List.filter_cons_of_neg (by simp [hx])]
    · rw [if_neg h]
      by_cases hy : p y = true
      · rw [List.filter_cons_of_pos hy, List.filter_cons_of_pos hy, ih]
      · rw [List.filter_cons_of_neg (by simp [hy]),
          List.filter_cons_of_neg (by simp [hy]), ih]

theorem filter_orderedInsert_name (n : String) (x : IBeer) (hx : x.name = n) :
    ∀ l : List IBeer,
      (List.orderedInsert nameLe x l).filter (fun b => b.name == n)
        = x :: l.filter (fun b => b.name == n) := by
  intro l
  induction l with
  | nil => simp [List.orderedInsert, hx]
  | cons y ys ih =>
    rw [List.orderedInsert]
    by_cases h : nameLe x y
    · rw [if_pos h, List.filter_cons_of_pos (by simp [hx])]
    · rw [if_neg h]
      have hy : (y.name == n) = false := by
        refine beq_eq_false_iff_ne.mpr (fun hyn => h ?_)
        show x.name.data ≤ y.name.data
        rw [hx, hyn]
      rw [List.filter_cons_of_neg (by simp [hy]),
        List.filter_cons_of_neg (by simp [hy]), ih]

theorem filter_name_insertionSort (n : String) :
    ∀ l : List IBeer,
      (List.insertionSort nameLe l).filter (fun b => b.name == n)
        = l.filter (fun b => b.name == n) := by
  intro l
  induction l with
  | nil => rfl
  | cons x xs ih =>
    rw [List.insertionSort]
    by_cases hx : x.name = n
    · rw [filter_orderedInsert_name n x hx _, ih,
        List.filter_cons_of_pos (by simp [hx])]
    · rw [filter_orderedInsert_of_neg (fun b => b.name == n) x (by simp [hx]) _,
        ih, List.filter_cons_of_neg (by simp [hx])]

/-! ### The merge-engine claims -/

/-- **C6**: every catalog produced by `unionAndSortBeers` is sorted with
names non-decreasing; entities with equal names keep the relative order
they had before the sort (the deduplicated `existing ++ incoming` pass),
i.e. the sort is stable; and no two elements of the result share an id. -/
theorem unionAndSortBeers_invariants (C X : List IBeer) :
    List.Sorted nameLe (unionAndSortBeers C X) ∧
    (∀ n : String,
      (unionAndSortBeers C X).filter (fun b => b.name == n)
        = (dedupById (C ++ X) []).filter (fun b => b.name == n)) ∧
    (unionAndSortBeers C X).Pairwise (fun a b => a.id ≠ b.id) := by
  refine ⟨List.sorted_insertionSort nameLe _,
    fun n => filter_name_insertionSort n _, ?_⟩
  have hperm := List.perm_insertionSort nameLe (dedupById (C ++ X) [])
  exact (hperm.pairwise_iff (fun h => h.symm)).mpr (dedupById_pairwise _ _)

/-- **C1 (amended)**: an id occurring in both the existing catalog `C` and
the incoming list `X` appears exactly once in the merge result, and the
entry carried for it is the one from `C` (the *existing* entry wins:
`_.unionWith` keeps the first occurrence); the result never contains two
entities with the same id. -/
theorem unionAndSortBeers_overlap (C X : List IBeer) (i : Int)
    (hC : ∃ b ∈ C, b.id = i) (hX : ∃ b ∈ X, b.id = i) :
    (unionAndSortBeers C X).filter (fun b => b.id == i)
        = (C.find? (fun b => b.id == i)).toList ∧
    ((unionAndSortBeers C X).filter (fun b => b.id == i)).length = 1 ∧
    (unionAndSortBeers C X).Pairwise (fun a b => a.id ≠ b.id) := by
  obtain ⟨b, hbC, hbi⟩ := hC
  have hsome : (C.find? (fun b => b.id == i)).isSome :=
    List.find?_isSome.mpr ⟨b, hbC, by simp [hbi]⟩
  obtain ⟨b₀, hb₀⟩ := Option.isSome_iff_exists.mp hsome
  have happ : (C ++ X).find? (fun b => b.id == i) = some b₀ := by
    rw [List.find?_append, hb₀]; rfl
  have hfilter : (dedupById (C ++ X) []).filter (fun b => b.id == i) = [b₀] := by
    rw [filter_dedupById_eq_find? i (C ++ X) [] (by simp), happ]; rfl
  have hperm := List.perm_insertionSort nameLe (dedupById (C ++ X) [])
  have hfperm := hperm.filter (fun b => b.id == i)
  rw [hfilter] at hfperm
  have heq := List.perm_singleton.mp hfperm
  simp only [unionAndSortBeers, sortByName]
  refine ⟨by rw [heq, hb₀]; rfl, by rw [heq]; rfl, ?_⟩
  exact (hperm.pairwise_iff (fun h => h.symm)).mpr (dedupById_pairwise _ _)

/-- Witness for `unionAndSortBeers_overlap` at a concrete overlap. -/
theorem unionAndSortBeers_overlap_witness :
    (unionAndSortBeers [⟨1, "a"⟩] [⟨1, "b"⟩]).filter (fun b => b.id == 1)
        = (([⟨1, "a"⟩] : List IBeer).find? (fun b => b.id == 1)).toList ∧
    ((unionAndSortBeers [⟨1, "a"⟩] [⟨1, "b"⟩]).filter (fun b => b.id == 1)).length = 1 ∧
    (unionAndSortBeers [⟨1, "a"⟩] [⟨1, "b"⟩]).Pairwise (fun a b => a.id ≠ b.id) :=
  unionAndSortBeers_overlap [⟨1, "a"⟩] [⟨1, "b"⟩] 1 (by decide) (by decide)

/-- **C1 (counterexample)**: the claim as stated says the incoming entry
wins; but for catalog `[⟨1, "a"⟩]` and incoming `[⟨1, "b"⟩]` the merge keeps
the existing entry `⟨1, "a"⟩` and the incoming entry `⟨1, "b"⟩` is absent. -/
theorem unionAndSortBeers_incoming_loses :
    unionAndSortBeers [⟨1, "a"⟩] [⟨1, "b"⟩] = [⟨1, "a"⟩] ∧
    (⟨1, "b"⟩ : IBeer) ∉ unionAndSortBeers [⟨1, "a"⟩] [⟨1, "b"⟩] := by
  decide

/-- **C5**: the merge is idempotent:
`merge(merge(C, X), X) = merge(C, X)` for every catalog `C` and incoming
sequence `X`. -/
theorem unionAndSortBeers_idem (C X : List IBeer) :
    unionAndSortBeers (unionAndSortBeers C X) X = unionAndSortBeers C X := by
  have hperm := List.perm_insertionSort nameLe (dedupById (C ++ X) [])
  have hpwS : (unionAndSortBeers C X).Pairwise (fun a b => a.id ≠ b.id) :=
    (hperm.pairwise_iff (fun h => h.symm)).mpr (dedupById_pairwise _ _)
  have hX : ∀ x ∈ X, x.id ∈ ((unionAndSortBeers C X).map (fun b => b.id)).reverse ++ ([] : List Int) := by
    intro x hx
    have hex : ∃ b ∈ dedupById (C ++ X) [], b.id = x.id :=
      (exists_id_dedupById x.id (C ++ X) [] (by simp)).mpr
        ⟨x, List.mem_append_right C hx, rfl⟩
    obtain ⟨b, hbD, hbid⟩ := hex
    have hbS : b ∈ unionAndSortBeers C X := hperm.symm.subset hbD
    simp only [List.append_nil, List.mem_reverse]
    exact List.mem_map.mpr ⟨b, hbS, hbid⟩
  show sortByName (dedupById (unionAndSortBeers C X ++ X) []) = unionAndSortBeers C X
  rw [dedupById_append_nodup (unionAndSortBeers C X) X [] hpwS (by simp),
    dedupById_eq_nil X _ hX, List.append_nil]
  exact List.Sorted.insertionSort_eq (List.sorted_insertionSort nameLe _)

/-! ## Preference Set and Annotation Map operations -/

/-- The computed `likedBeers`: the catalog entries whose id is included in
`likedBeerIds`. -/
def likedBeers (s : StoreState) : List IBeer :=
  s.beers.filter (fun beer => s.likedBeerIds.contains beer.id)

/-- `isLikedBeer(id)`: `_.find(this.likedBeers, { id }) ? true : false`.
Note it searches `likedBeers` (liked entries *present in the catalog*),
not `likedBeerIds`. -/
def isLikedBeer (s : StoreState) (id : Int) : Bool :=
  ((likedBeers s).find? (fun b => b.id == id)).isSome

/-- `toggleLikeBeer(id)`: push when `isLikedBeer(id) === false`, else
`_.remove` every occurrence.  The trailing `uploadStateToUserProfile()`
push is an asynchronous fire-and-forget network task that mutates none of
the fields read here; it is outside this embedding. -/
def toggleLikeBeer (s : StoreState) (id : Int) : StoreState :=
  if isLikedBeer s id = false then
    { s with likedBeerIds := s.likedBeerIds ++ [id] }
  else
    { s with likedBeerIds := s.likedBeerIds.filter (fun item => !(item == id)) }

/-- The message of the `setComment` precondition throw. -/
def preconditionMsg : String :=
  "You are not allowed to setComment on beers not within our cache!"

/-- `setComment(id, comment)`: throws (second component `some msg`) when no
catalog entry has this id; otherwise `if (comment)` — JS truthiness, so
`null` *and* the empty string are falsy — sets or deletes the entry at key
`id` rendered as a string.  The trailing `uploadStateToUserProfile()` push
is outside this embedding (it mutates none of the fields read here). -/
def setComment (s : StoreState) (id : Int) (comment : Option String) :
    StoreState × Option String :=
  if !(s.beers.find? (fun b => b.id == id)).isSome then
    (s, some preconditionMsg)
  else
    match comment with
    | some c =>
      if c == "" then
        ({ s with commentsMap := jsMapDelete s.commentsMap (toString id) }, none)
      else
        ({ s with commentsMap := jsMapSet s.commentsMap (toString id) c }, none)
    | none =>
      ({ s with commentsMap := jsMapDelete s.commentsMap (toString id) }, none)

/-- `wipe()`: clears the catalog, the uri map and the quota counter,
nothing else. -/
def wipe (s : StoreState) : StoreState :=
  { s with beers := [], uriMap := [], remainingRequests := 0 }

/-! ### Map lemmas -/

theorem jsMapGet_set_self {α : Type} (m : List (String × α)) (k : String) (v : α) :
    jsMapGet (jsMapSet m k v) k = some v := by
  rw [jsMapGet]
  suffices h : (jsMapSet m k v).find? (fun p => p.1 == k) = some (k, v) by
    rw [h]; rfl
  rw [jsMapSet]
  by_cases hm : m.any (fun p => p.1 == k)
  · rw [if_pos hm, List.find?_map]
    have hcomp : ((fun p : String × α => p.1 == k) ∘ fun p => if p.1 == k then (k, v) else p)
        = (fun p : String × α => p.1 == k) := by
      funext p
      by_cases hp : p.1 = k
      · simp [hp]
      · simp [hp]
    rw [hcomp]
    have hsome : (m.find? (fun p => p.1 == k)).isSome :=
      List.find?_isSome.mpr (List.any_eq_true.mp hm)
    obtain ⟨q, hq⟩ := Option.isSome_iff_exists.mp hsome
    have hqk := List.find?_some hq
    rw [hq]
    simp only [beq_iff_eq] at hqk
    simp [hqk]
  · rw [if_neg hm]
    rw [List.find?_append]
    have hnone : m.find? (fun p => p.1 == k) = none := by
      rw [List.find?_eq_none]
      intro p hp hpk
      exact (List.any_eq_false.mp (Bool.not_eq_true _ ▸ hm) p hp) hpk
    rw [hnone]
    simp [List.find?]

theorem jsMapGet_delete_self {α : Type} (m : List (String × α)) (k : String) :
    jsMapGet (jsMapDelete m k) k = none := by
  rw [jsMapGet, jsMapDelete]
  have : (m.filter (fun p => !(p.1 == k))).find? (fun p => p.1 == k) = none := by
    rw [List.find?_eq_none]
    intro p hp
    have := (List.mem_filter.mp hp).2
    simp only [Bool.not_eq_eq_eq_not, Bool.not_true] at this
    simp [this]
  rw [this]
  rfl

/-! ### The Preference Set / Annotation Map / reset claims -/

theorem isLikedBeer_iff (s : StoreState) (id : Int) :
    isLikedBeer s id = true ↔ (id ∈ s.likedBeerIds ∧ ∃ b ∈ s.beers, b.id = id) := by
  simp only [isLikedBeer, likedBeers, List.find?_isSome, List.mem_filter]
  constructor
  · rintro ⟨x, ⟨hxb, hxl⟩, hxi⟩
    simp only [beq_iff_eq] at hxi
    refine ⟨?_, x, hxb, hxi⟩
    rw [← hxi]
    simpa using hxl
  · rintro ⟨hmem, x, hxb, hxi⟩
    exact ⟨x, ⟨hxb, by simp [hxi, hmem]⟩, by simp [hxi]⟩

theorem toggleLikeBeer_beers (s : StoreState) (id : Int) :
    (toggleLikeBeer s id).beers = s.beers := by
  rw [toggleLikeBeer]
  split <;> rfl

/-- **C4 (counterexample)**: with an empty catalog, `toggle(5)` on a store
whose Preference Set already contains `5` (after a first toggle) *appends*
`5` again instead of removing it, and a double toggle starting from the
empty set leaves `5` a member — membership is not restored. -/
theorem toggleLikeBeer_not_involutive :
    (5 : Int) ∉ initialState.likedBeerIds ∧
    (toggleLikeBeer initialState 5).likedBeerIds = [5] ∧
    (toggleLikeBeer (toggleLikeBeer initialState 5) 5).likedBeerIds = [5, 5] ∧
    (5 : Int) ∈ (toggleLikeBeer (toggleLikeBeer initialState 5) 5).likedBeerIds := by
  decide

/-- **C4 (amended)**: `toggle(id)` appends exactly when `isLikedBeer(id)`
is false — i.e. when `id` is missing from the Preference Set *or* no
entity with that id is in the Catalog — and otherwise removes every
occurrence; the double-toggle membership involution holds provided an
entity with that id is present in the Catalog. -/
theorem toggleLikeBeer_spec (s : StoreState) (id : Int) :
    (isLikedBeer s id = false →
      (toggleLikeBeer s id).likedBeerIds = s.likedBeerIds ++ [id]) ∧
    (isLikedBeer s id = true →
      (toggleLikeBeer s id).likedBeerIds
        = s.likedBeerIds.filter (fun item => !(item == id))) ∧
    ((∃ b ∈ s.beers, b.id = id) →
      (id ∈ (toggleLikeBeer (toggleLikeBeer s id) id).likedBeerIds
        ↔ id ∈ s.likedBeerIds)) := by
  refine ⟨fun h => by rw [toggleLikeBeer, if_pos h],
    fun h => by rw [toggleLikeBeer, if_neg (by simp [h])], ?_⟩
  intro hbeer
  by_cases hmem : id ∈ s.likedBeerIds
  · have h1 : isLikedBeer s id = true := (isLikedBeer_iff s id).mpr ⟨hmem, hbeer⟩
    have hs1 : (toggleLikeBeer s id).likedBeerIds
        = s.likedBeerIds.filter (fun item => !(item == id)) := by
      rw [toggleLikeBeer, if_neg (by simp [h1])]
    have h2 : isLikedBeer (toggleLikeBeer s id) id = false := by
      rw [Bool.eq_false_iff]
      intro h
      have := ((isLikedBeer_iff _ id).mp h).1
      rw [hs1] at this
      have := (List.mem_filter.mp this).2
      simp at this
    rw [toggleLikeBeer, if_pos h2]
    simp [hmem]
  · have h1 : isLikedBeer s id = false := by
      rw [Bool.eq_false_iff]
      intro h
      exact hmem ((isLikedBeer_iff s id).mp h).1
    have hs1 : (toggleLikeBeer s id).likedBeerIds = s.likedBeerIds ++ [id] := by
      rw [toggleLikeBeer, if_pos h1]
    have h2 : isLikedBeer (toggleLikeBeer s id) id = true := by
      refine (isLikedBeer_iff _ id).mpr ⟨?_, ?_⟩
      · rw [hs1]; simp
      · rw [toggleLikeBeer_beers]; exact hbeer
    rw [toggleLikeBeer, if_neg (by simp [h2]), hs1]
    constructor
    · intro h
      have := (List.mem_filter.mp h).2
      simp at this
    · exact fun h => absurd h hmem

/-- A concrete store for the C4 witness: entity 5 is in the catalog and
liked. -/
def exToggleState : StoreState :=
  { initialState with beers := [⟨5, "x"⟩], likedBeerIds := [5] }

/-- Witness for `toggleLikeBeer_spec` at a concrete state. -/
theorem toggleLikeBeer_spec_witness :
    (toggleLikeBeer exToggleState 5).likedBeerIds
        = exToggleState.likedBeerIds.filter (fun item => !(item == 5)) ∧
    ((5 : Int) ∈ (toggleLikeBeer (toggleLikeBeer exToggleState 5) 5).likedBeerIds
        ↔ (5 : Int) ∈ exToggleState.likedBeerIds) :=
  ⟨(toggleLikeBeer_spec exToggleState 5).2.1 (by decide),
   (toggleLikeBeer_spec exToggleState 5).2.2 ⟨⟨5, "x"⟩, by decide, by decide⟩⟩

/-- **C8 (counterexample)**: with entity 1 in the catalog and an existing
annotation, `setComment(1, "")` — a non-null text — *deletes* the entry
instead of setting it (JS truthiness: the empty string is falsy). -/
theorem setComment_empty_string_deletes :
    (setComment { initialState with
        beers := [⟨1, "a"⟩], commentsMap := [("1", "old")] } 1 (some "")).2 = none ∧
    (setComment { initialState with
        beers := [⟨1, "a"⟩], commentsMap := [("1", "old")] } 1 (some "")).1.commentsMap = [] ∧
    jsMapGet (setComment { initialState with
        beers := [⟨1, "a"⟩], commentsMap := [("1", "old")] } 1 (some "")).1.commentsMap "1"
      ≠ some "" := by
  decide

/-- **C8 (amended)**: `setComment(id, comment)` throws the
`PreconditionFailed` message and leaves the whole store (in particular
the Annotation Map) unchanged whenever no catalog entity carries `id`;
when one does, it does not throw, a non-null *non-empty* text sets the
entry at key `id`, and a null or empty text deletes it. -/
theorem setComment_spec (s : StoreState) (id : Int) (comment : Option String) :
    ((s.beers.find? (fun b => b.id == id)) = none →
      setComment s id comment = (s, some preconditionMsg)) ∧
    ((s.beers.find? (fun b => b.id == id)).isSome = true →
      (setComment s id comment).2 = none ∧
      (∀ c, comment = some c → c ≠ "" →
        jsMapGet (setComment s id comment).1.commentsMap (toString id) = some c) ∧
      ((comment = none ∨ comment = some "") →
        jsMapGet (setComment s id comment).1.commentsMap (toString id) = none)) := by
  constructor
  · intro h
    rw [setComment.eq_def, if_pos (by simp [h])]
  · intro h
    have hcond : (!(s.beers.find? (fun b => b.id == id)).isSome) = false := by
      simp [h]
    refine ⟨?_, ?_, ?_⟩
    · rcases comment with _ | c
      · rw [setComment, if_neg (by simp [hcond])]
      · by_cases hc : (c == "") = true
        · rw [setComment, if_neg (by simp [hcond]), if_pos hc]
        · rw [setComment, if_neg (by simp [hcond]), if_neg hc]
    · rintro c rfl hc
      rw [setComment, if_neg (by simp [hcond]), if_neg (by simp [hc])]
      exact jsMapGet_set_self s.commentsMap (toString id) c
    · rintro (rfl | rfl)
      · rw [setComment, if_neg (by simp [hcond])]
        exact jsMapGet_delete_self s.commentsMap (toString id)
      · rw [setComment, if_neg (by simp [hcond]), if_pos (by simp)]
        exact jsMapGet_delete_self s.commentsMap (toString id)

/-- Witness for `setComment_spec` at concrete inputs. -/
theorem setComment_spec_witness :
    setComment initialState 1 (some "hi") = (initialState, some preconditionMsg) ∧
    jsMapGet (setComment { initialState with beers := [⟨1, "a"⟩] } 1
        (some "hi")).1.commentsMap "1" = some "hi" := by
  refine ⟨(setComment_spec initialState 1 (some "hi")).1 (by decide), ?_⟩
  have h := ((setComment_spec { initialState with beers := [⟨1, "a"⟩] } 1
      (some "hi")).2 (by decide)).2.1 "hi" rfl (by decide)
  exact h

/-- **C9**: `wipe()` empties the catalog and the uri map and zeroes the
quota counter, while every other field — Preference Set, Annotation Map,
Selection, Error State, Aggregate Info, the uploading and rehydration
flags — keeps exactly its prior value. -/
theorem wipe_spec (s : StoreState) :
    (wipe s).beers = [] ∧ (wipe s).uriMap = [] ∧ (wipe s).remainingRequests = 0 ∧
    (wipe s).likedBeerIds = s.likedBeerIds ∧ (wipe s).commentsMap = s.commentsMap ∧
    (wipe s).selectedBeer = s.selectedBeer ∧ (wipe s).errorText = s.errorText ∧
    (wipe s).beersInfo = s.beersInfo ∧ (wipe s).isUploading = s.isUploading ∧
    (wipe s).isRehydrated = s.isRehydrated :=
  ⟨rfl, rfl, rfl, rfl, rfl, rfl, rfl, rfl, rfl, rfl⟩

/-! ## The fetch path (`getBeersApi`, `loadBeer`, `selectBeer`) -/

/-- The outcome the transport yields for one `fetch(uri)` call: an HTTP
response (status, parsed JSON body, parsed remaining-quota header) or a
network/parse failure with the error's message. -/
inductive FetchOutcome where
  | success (status : Nat) (body : List IBeer) (remaining : Int)
  | networkError (msg : String)
deriving DecidableEq, Repr

/-- The transport collaborator as an oracle from URI to outcome. -/
def FetchOracle : Type := String → FetchOutcome

/-- The URI built by `getBeersApi`:
`https://api.punkapi.com/v2/beers${id ? "/" + id : ""}`.
JS truthiness: `undefined` *and* `0` are falsy, so `getBeersApi(0)` builds
the whole-collection URI. -/
def beersUri (id : Option Int) : String :=
  "https://api.punkapi.com/v2/beers" ++
    (match id with
     | some i => if i == 0 then "" else "/" ++ toString i
     | none => "")

/-- Result of the synchronous prefix of `getBeersApi`, up to (and
excluding) the `await fetch`: either the call returned without touching
the network (`reuse`), or it reached the fetch (`fetching`), which is the
transport call. -/
inductive BeginResult where
  | reuse (beers : List IBeer) (s : StoreState)
  | fetching (uri : String) (s : StoreState)
deriving DecidableEq, Repr

/-- Synchronous prefix of `getBeersApi(id?)`: dismiss the error; if
`this.uriMap.get(uri) === false` (a previously *completed* fetch) return
the current catalog without network I/O; otherwise set the uri entry to
`true` (in-flight) and suspend on the fetch. -/
def getBeersApiBegin (s : StoreState) (id : Option Int) : BeginResult :=
  if jsMapGet s.uriMap (beersUri id) = some false then
    .reuse s.beers { s with errorText := none }
  else
    .fetching (beersUri id)
      { s with errorText := none,
               uriMap := jsMapSet s.uriMap (beersUri id) true }

/-- Synchronous suffix of `getBeersApi`, resuming after `await fetch(uri)`:
a non-200 status throws, and the catch path (shared with network failure)
deletes the uri entry, records the message in the error state and returns
no beers; on success the remaining-quota header is recorded and the uri
entry is set to `false` (done). -/
def getBeersApiFinish (outcome : FetchOutcome) (uri : String) (s : StoreState) :
    List IBeer × StoreState :=
  match outcome with
  | .success status body remaining =>
    if status ≠ 200 then
      ([], { s with uriMap := jsMapDelete s.uriMap uri,
                    errorText := some ("API returned unexpected response code: "
                      ++ toString status) })
    else
      (body, { s with remainingRequests := remaining,
                      uriMap := jsMapSet s.uriMap uri false })
  | .networkError msg =>
    ([], { s with uriMap := jsMapDelete s.uriMap uri, errorText := some msg })

/-- A whole, non-overlapping call to `getBeersApi(id?)`: the composition
of the two phases.  The third component is the trace of transport calls
performed by this call. -/
def getBeersApi (o : FetchOracle) (s : StoreState) (id : Option Int) :
    List IBeer × StoreState × List String :=
  match getBeersApiBegin s id with
  | .reuse beers s1 => (beers, s1, [])
  | .fetching uri s1 =>
    match getBeersApiFinish (o uri) uri s1 with
    | (beers, s2) => (beers, s2, [uri])

/-- The message `loadBeer` throws when the fetch yields no entity. -/
def notFoundMsg : String := "Beer not found or currently unavailable!"

/-- `loadBeer(id)`: return the cached entity when present (no network
call); otherwise call `getBeersApi(id)`, destructure the *first* yielded
entity, throw `notFoundMsg` when there is none, else merge that single
entity into the catalog and return it.  Result: final state, transport
trace, and the returned beer or the thrown message. -/
def loadBeer (o : FetchOracle) (s : StoreState) (id : Int) :
    StoreState × List String × Except String IBeer :=
  match s.beers.find? (fun b => b.id == id) with
  | some beer => (s, [], .ok beer)
  | none =>
    match getBeersApi o s (some id) with
    | ([], s2, calls) => (s2, calls, .error notFoundMsg)
    | (beer :: _, s2, calls) =>
      ({ s2 with beers := unionAndSortBeers s2.beers [beer] }, calls, .ok beer)

/-- The digits of a base-10 numeral folded into a `Nat`. -/
def digitsToNat (ds : List Char) : Nat :=
  ds.foldl (fun acc c => acc * 10 + (c.toNat - 48)) 0

/-- JS `parseInt` with radix 10 as invoked through `_.parseInt`: skip
leading whitespace, an optional sign, then the longest digit prefix;
`none` models `NaN`, which is exactly what `_.isFinite` rejects in
`selectBeer`.  (A hex literal "0x…" parses as 0 here; it is a finite
number either way, and no claim depends on hex input.) -/
def parseIntJS (str : String) : Option Int :=
  let cs := str.toList.dropWhile
    (fun c => c == ' ' || c == '\t' || c == '\n' || c == '\r')
  let signAndRest : Int × List Char :=
    match cs with
    | '-' :: rest => (-1, rest)
    | '+' :: rest => (1, rest)
    | _ => (1, cs)
  let ds := signAndRest.2.takeWhile (fun c => decide ('0' ≤ c) && decide (c ≤ '9'))
  if ds.isEmpty then none
  else some (signAndRest.1 * (digitsToNat ds : Int))

/-- The message thrown for a non-numeric id in `selectBeer`. -/
def invalidIdMsg : String := "Beers can only have numeric ids!"

/-- `selectBeer(idFromUrl)`: dismiss the error, parse the raw id, and
inside a catch-all: throw on a non-finite parse, else await `loadBeer`
and assign the selection; the catch records the caught failure's message
in the error state.  The union-typed argument is taken after
`.toString()`.  The fire-and-forget `refreshBeersInfo()` issued first
suspends on its own fetch before mutating anything and is never awaited;
it is a separate concurrent task outside this function's effect. -/
def selectBeer (o : FetchOracle) (s : StoreState) (idFromUrl : String) :
    StoreState × List String :=
  match parseIntJS idFromUrl with
  | none => ({ s with errorText := some invalidIdMsg }, [])
  | some id =>
    match loadBeer o { s with errorText := none } id with
    | (s2, calls, .ok beer) => ({ s2 with selectedBeer := some beer }, calls)
    | (s2, calls, .error msg) => ({ s2 with errorText := some msg }, calls)

/-! ### Case lemmas for the fetch path -/

theorem getBeersApi_eq_reuse (o : FetchOracle) (s : StoreState) (id : Option Int)
    (h : jsMapGet s.uriMap (beersUri id) = some false) :
    getBeersApi o s id = (s.beers, { s with errorText := none }, []) := by
  rw [getBeersApi, getBeersApiBegin, if_pos h]

theorem getBeersApi_eq_fetch (o : FetchOracle) (s : StoreState) (id : Option Int)
    (h : ¬ jsMapGet s.uriMap (beersUri id) = some false) :
    getBeersApi o s id
      = ((getBeersApiFinish (o (beersUri id)) (beersUri id)
            { s with errorText := none,
                     uriMap := jsMapSet s.uriMap (beersUri id) true }).1,
         (getBeersApiFinish (o (beersUri id)) (beersUri id)
            { s with errorText := none,
                     uriMap := jsMapSet s.uriMap (beersUri id) true }).2,
         [beersUri id]) := by
  rw [getBeersApi, getBeersApiBegin, if_neg h]

theorem getBeersApiFinish_frame (outcome : FetchOutcome) (uri : String)
    (s : StoreState) :
    (getBeersApiFinish outcome uri s).2.selectedBeer = s.selectedBeer ∧
    (getBeersApiFinish outcome uri s).2.beers = s.beers := by
  rcases outcome with ⟨status, body, remaining⟩ | msg
  · simp only [getBeersApiFinish]
    by_cases hs : status ≠ 200
    · rw [if_pos hs]; exact ⟨rfl, rfl⟩
    · rw [if_neg hs]; exact ⟨rfl, rfl⟩
  · exact ⟨rfl, rfl⟩

theorem getBeersApi_selectedBeer (o : FetchOracle) (s : StoreState)
    (id : Option Int) :
    (getBeersApi o s id).2.1.selectedBeer = s.selectedBeer := by
  by_cases h : jsMapGet s.uriMap (beersUri id) = some false
  · rw [getBeersApi_eq_reuse o s id h]
  · rw [getBeersApi_eq_fetch o s id h]
    exact (getBeersApiFinish_frame _ _ _).1

theorem loadBeer_selectedBeer (o : FetchOracle) (s : StoreState) (id : Int) :
    (loadBeer o s id).1.selectedBeer = s.selectedBeer := by
  rw [loadBeer.eq_def]
  rcases hfind : s.beers.find? (fun b => b.id == id) with _ | beer
  · rw [hfind]
    rcases hapi : getBeersApi o s (some id) with ⟨bs, s2, calls⟩
    have hsel := getBeersApi_selectedBeer o s (some id)
    rw [hapi] at hsel
    rcases bs with _ | ⟨b, rest⟩
    · exact hsel
    · exact hsel
  · rw [hfind]

/-! ### The dedup-cache claims -/

/-- The store state after one fetch of the "all" key has begun and not yet
completed: the uri is marked `true` (in-flight). -/
def inFlightAllState : StoreState :=
  { initialState with uriMap := [(beersUri none, true)] }

/-- The store state in which a fetch of the "all" key has completed: the
uri is marked `false` (done). -/
def doneAllState : StoreState :=
  { initialState with uriMap := [(beersUri none, false)] }

/-- **C2 (counterexample)**: starting from the fresh store, a first call of
the fetch path for the "all" key reaches the transport (`fetching`), and a
second call that begins while the first is still in flight *also* reaches
the transport: the in-flight status (`true`) does not short-circuit, so
both overlapping calls perform network I/O. -/
theorem overlapping_fetches_both_transport :
    getBeersApiBegin initialState none
      = .fetching (beersUri none) inFlightAllState ∧
    getBeersApiBegin inFlightAllState none
      = .fetching (beersUri none) inFlightAllState := by
  decide

/-- **C2 (amended)**: the dedup applies to *completed* fetches: once a call
to the fetch path for a key has run against a transport that answered
status 200, any later call for the same key performs no transport call
(its trace is empty) and returns the catalog as it then stands. -/
theorem getBeersApi_dedup_after_success (o o2 : FetchOracle) (s : StoreState)
    (id : Option Int) (body : List IBeer) (remaining : Int)
    (h : o (beersUri id) = .success 200 body remaining) :
    getBeersApi o2 (getBeersApi o s id).2.1 id
      = ((getBeersApi o s id).2.1.beers,
         { (getBeersApi o s id).2.1 with errorText := none }, []) := by
  have hdone : jsMapGet (getBeersApi o s id).2.1.uriMap (beersUri id) = some false := by
    by_cases hc : jsMapGet s.uriMap (beersUri id) = some false
    · rw [getBeersApi_eq_reuse o s id hc]
      exact hc
    · rw [getBeersApi_eq_fetch o s id hc, h]
      simp only [getBeersApiFinish]
      rw [if_neg (by simp)]
      exact jsMapGet_set_self _ (beersUri id) false
  exact getBeersApi_eq_reuse o2 _ id hdone

/-- The constant-success transport used by the concrete witnesses. -/
def exOracle : FetchOracle := fun _ => .success 200 [⟨7, "g"⟩] 42

/-- Witness for `getBeersApi_dedup_after_success`: a completed fetch of the
"all" key followed by a second call, which stays off the network. -/
theorem getBeersApi_dedup_after_success_witness :
    getBeersApi exOracle (getBeersApi exOracle initialState none).2.1 none
      = ((getBeersApi exOracle initialState none).2.1.beers,
         { (getBeersApi exOracle initialState none).2.1 with errorText := none },
         []) :=
  getBeersApi_dedup_after_success exOracle exOracle initialState none
    [⟨7, "g"⟩] 42 rfl

/-- **C3 (counterexample)**: for a key whose status is done (`false` in the
uri map), a new call does *not* transition to in-flight and fetch again: it
short-circuits, returning the current catalog with an empty transport
trace (the oracle is never consulted). -/
theorem done_key_short_circuits :
    getBeersApiBegin doneAllState none
      = .reuse doneAllState.beers { doneAllState with errorText := none } ∧
    getBeersApi (fun _ => FetchOutcome.networkError "unreachable")
        doneAllState none
      = (doneAllState.beers, { doneAllState with errorText := none }, []) := by
  decide

/-- **C3 (amended)**: the short-circuit condition is the *done* status: a
key mapped to `false` makes the fetch path return the current catalog
untouched, while a key that is absent or in-flight (`true`) proceeds to
the external fetch, setting the key in-flight. -/
theorem getBeersApiBegin_spec (s : StoreState) (id : Option Int) :
    (jsMapGet s.uriMap (beersUri id) = some false →
      getBeersApiBegin s id = .reuse s.beers { s with errorText := none }) ∧
    (jsMapGet s.uriMap (beersUri id) ≠ some false →
      getBeersApiBegin s id
        = .fetching (beersUri id)
            { s with errorText := none,
                     uriMap := jsMapSet s.uriMap (beersUri id) true } ∧
      jsMapGet (jsMapSet s.uriMap (beersUri id) true) (beersUri id) = some true) :=
  ⟨fun h => by rw [getBeersApiBegin, if_pos h],
   fun h => ⟨by rw [getBeersApiBegin, if_neg h],
             jsMapGet_set_self s.uriMap (beersUri id) true⟩⟩

/-- Witness for `getBeersApiBegin_spec` at concrete states: a done key
short-circuits, a fresh key fetches. -/
theorem getBeersApiBegin_spec_witness :
    getBeersApiBegin doneAllState none
        = .reuse doneAllState.beers { doneAllState with errorText := none } ∧
    (getBeersApiBegin initialState none
        = .fetching (beersUri none)
            { initialState with
                errorText := none,
                uriMap := jsMapSet initialState.uriMap (beersUri none) true } ∧
      jsMapGet (jsMapSet initialState.uriMap (beersUri none) true)
        (beersUri none) = some true) :=
  ⟨(getBeersApiBegin_spec doneAllState none).1 (by decide),
   (getBeersApiBegin_spec initialState none).2 (by decide)⟩

/-! ### The `selectBeer` and `loadBeer(0)` claims -/

/-- **C7**: `selectBeer` is a total function (the catch-all converts every
failure into state, never a thrown exception): on a non-numeric raw id it
records the argument-validity message and leaves the selection unchanged;
when `loadBeer` fails — id absent locally and remotely, or transport
failure surfacing as the not-found error — it records that failure's
message and leaves the selection unchanged; the selection is assigned
exactly when `loadBeer` succeeds. -/
theorem selectBeer_spec (o : FetchOracle) (s : StoreState) (raw : String) :
    (parseIntJS raw = none →
      selectBeer o s raw = ({ s with errorText := some invalidIdMsg }, [])) ∧
    (∀ id s2 calls msg, parseIntJS raw = some id →
      loadBeer o { s with errorText := none } id = (s2, calls, .error msg) →
      (selectBeer o s raw).1.errorText = some msg ∧
      (selectBeer o s raw).1.selectedBeer = s.selectedBeer ∧
      (selectBeer o s raw).2 = calls) ∧
    (∀ id s2 calls beer, parseIntJS raw = some id →
      loadBeer o { s with errorText := none } id = (s2, calls, .ok beer) →
      (selectBeer o s raw).1.selectedBeer = some beer ∧
      (selectBeer o s raw).2 = calls) := by
  refine ⟨?_, ?_, ?_⟩
  · intro h
    rw [selectBeer.eq_def, h]
  · intro id s2 calls msg hp hl
    have hsel2 : s2.selectedBeer = s.selectedBeer := by
      have := loadBeer_selectedBeer o { s with errorText := none } id
      rw [hl] at this
      exact this
    have hrun : selectBeer o s raw = ({ s2 with errorText := some msg }, calls) := by
      rw [selectBeer.eq_def, hp]
      simp only [hl]
    rw [hrun]
    exact ⟨rfl, hsel2, rfl⟩
  · intro id s2 calls beer hp hl
    have hrun : selectBeer o s raw
        = ({ s2 with selectedBeer := some beer }, calls) := by
      rw [selectBeer.eq_def, hp]
      simp only [hl]
    rw [hrun]
    exact ⟨rfl, rfl⟩

/-- A store with entity 7 cached, for the C7 witness. -/
def exSelState : StoreState := { initialState with beers := [⟨7, "g"⟩] }

/-- Witness for `selectBeer_spec`: the non-numeric raw id "abc" resolves
into the validity message, and "7" with entity 7 cached selects it. -/
theorem selectBeer_spec_witness :
    selectBeer exOracle initialState "abc"
      = ({ initialState with errorText := some invalidIdMsg }, []) ∧
    (selectBeer exOracle exSelState "7").1.selectedBeer = some ⟨7, "g"⟩ :=
  ⟨(selectBeer_spec exOracle initialState "abc").1 rfl,
   ((selectBeer_spec exOracle exSelState "7").2.2 7
      { exSelState with errorText := none } [] ⟨7, "g"⟩ rfl rfl).1⟩

/-- **C10**: `0` is falsy in JS, so `getBeersApi(0)` builds the
whole-collection URI and the call coincides with `getBeersApi()`; hence
when no entity with id 0 is cached, `loadBeer(0)` returns the first
element of the fetched *full* collection — after merging just that
element — or throws the not-found message when that collection is empty,
rather than operating on the entity with id 0. -/
theorem loadBeer_zero_fetches_all (o : FetchOracle) (s : StoreState)
    (h : s.beers.find? (fun b => b.id == 0) = none) :
    beersUri (some 0) = beersUri none ∧
    getBeersApi o s (some 0) = getBeersApi o s none ∧
    loadBeer o s 0
      = (match getBeersApi o s none with
         | ([], s2, calls) => (s2, calls, .error notFoundMsg)
         | (beer :: _, s2, calls) =>
           ({ s2 with beers := unionAndSortBeers s2.beers [beer] },
            calls, .ok beer)) := by
  refine ⟨rfl, rfl, ?_⟩
  rw [loadBeer.eq_def, h]
  rfl

/-- Witness for `loadBeer_zero_fetches_all`: from the fresh store against
the constant-success transport, `loadBeer(0)` yields entity 7 — the first
element of the full collection. -/
theorem loadBeer_zero_fetches_all_witness :
    beersUri (some 0) = beersUri none ∧
    getBeersApi exOracle initialState (some 0)
      = getBeersApi exOracle initialState none ∧
    loadBeer exOracle initialState 0
      = (match getBeersApi exOracle initialState none with
         | ([], s2, calls) => (s2, calls, .error notFoundMsg)
         | (beer :: _, s2, calls) =>
           ({ s2 with beers := unionAndSortBeers s2.beers [beer] },
            calls, .ok beer)) :=
  loadBeer_zero_fetches_all exOracle initialState rfl
